import Mathlib

/-!
# Shallow embedding of queuefka (src/queuefka.go)

queuefka is an append-only segmented log.  A topic is a directory of
segment ("slab") files; each slab filename is a 20-digit zero-padded
decimal encoding of the absolute byte address of its first byte.  A
record on disk is `length (4B LE) ++ checksum (4B LE) ++ payload`.

Modelling conventions:
* Machine integers (`uint64`, `uint32`, `int64`) are `Nat`/`Int` with
  explicit modular arithmetic (`% 2^64`, `% 2^32`) where Go overflow or
  wraparound matters.
* Bytes are `Nat` values; byte slices are `List Nat`.
* The filesystem is modelled by `GoFS`: a map from a topic path to the
  (sorted-by-base) listing of its slab files, plus a flag saying
  whether `topic ++ "/*.slab"` is a malformed glob pattern (the only
  error `filepath.Glob` can report).  A slab file is a `Segment`
  carrying its filename-encoded base address and its current bytes.
  The fixed-width filename invariant means the sorted directory
  listing used by the Go code is in ascending base order, which is how
  the listing is represented here.
* `xxhash.Checksum32` is an external collaborator of the package (not
  part of this repository's source); it is modelled as an arbitrary
  hash function parameter truncated to 32 bits, exactly as the uint32
  return type does in Go.
* `bufio` is also an external collaborator.  A `bufio.Writer` holds up
  to 4096 buffered bytes; a write that fits in the free buffer space
  is buffered without touching the file, a write that does not fit
  flushes to the underlying file (an error if that file is closed, the
  bytes reaching the file in order if it is open); `Flush` forces all
  buffered bytes out.  Errors are sticky (`bufErr`).
* `log.Panic` and a nil-pointer dereference are modelled as the
  distinguished outcomes `SlabResult.panicked` / `ReadResult.panicked`
  (they are process aborts, not returned Go errors).
-/

namespace Queuefka

/-- `2^32`, the modulus of Go `uint32` arithmetic. -/
def pow32 : Nat := 2 ^ 32

/-- `2^64`, the modulus of Go `uint64` arithmetic. -/
def pow64 : Nat := 2 ^ 64

/-- Go `uint64` subtraction `a - b` (wraps modulo `2^64`). -/
def u64sub (a b : Nat) : Nat := (a % pow64 + pow64 - b % pow64) % pow64

/-- Reinterpret a `uint64` value as Go `int64` (two's complement). -/
def i64ofU64 (u : Nat) : Int := if u % pow64 < 2 ^ 63 then (u % pow64 : Int) else (u % pow64 : Int) - (pow64 : Int)

/-- `binary.LittleEndian.PutUint32`: the 4 little-endian bytes of a
`uint32` value (a `Nat` argument is truncated mod `2^32` exactly as the
Go `uint32` conversion does). -/
def putUint32LE (n : Nat) : List Nat :=
  [n % 256, n / 256 % 256, n / 65536 % 256, n / 16777216 % 256]

/-- `binary.LittleEndian.Uint32`: decode 4 little-endian bytes. -/
def getUint32LE (bs : List Nat) : Nat :=
  match bs with
  | [b0, b1, b2, b3] => b0 + 256 * b1 + 65536 * b2 + 16777216 * b3
  | _ => 0

/-- `xxhash.Checksum32` (external collaborator): an arbitrary payload
hash truncated to its `uint32` return type. -/
def Checksum32 (hash : List Nat → Nat) (d : List Nat) : Nat := hash d % pow32

/-- The on-disk frame `Writer.Write` emits for payload `d`:
4-byte little-endian length, 4-byte little-endian checksum, payload. -/
def frameBytes (hash : List Nat → Nat) (d : List Nat) : List Nat :=
  putUint32LE d.length ++ putUint32LE (Checksum32 hash d) ++ d

/-- One slab file: `base` is the 20-digit filename-encoded absolute
address of its first byte, `data` its current contents. -/
structure Segment where
  base : Nat
  data : List Nat
deriving DecidableEq

/-- The filesystem the package runs against.  `dirs t = none` models a
topic directory that does not exist; `some l` is its slab listing in
ascending base order (guaranteed by the fixed-width filenames plus
`filepath.Glob`'s sorted output).  `badPattern t` says whether
`t ++ "/*.slab"` is a malformed glob pattern — the only condition under
which `filepath.Glob` returns an error. -/
structure GoFS where
  dirs : String → Option (List Segment)
  badPattern : String → Bool

/-- The slab listing of a topic (empty when the directory is absent). -/
def listing (fs : GoFS) (topic : String) : List Segment :=
  (fs.dirs topic).getD []

/-- Result of `filepath.Glob topic ++ "/*.slab"`. -/
inductive GlobResult where
  | ok (files : List Segment)
  | errBadPattern
deriving DecidableEq

/-- `filepath.Glob(topic + "/*.slab")`: an error only for a malformed
pattern; a missing or empty directory yields an empty list and no
error (I/O failures while listing are swallowed by Glob). -/
def globSlabs (fs : GoFS) (topic : String) : GlobResult :=
  if fs.badPattern topic then .errBadPattern else .ok (listing fs topic)

/-- Outcome of `SlabFiles`: either the listing, or a `log.Panic`. -/
inductive SlabResult where
  | files (l : List Segment)
  | panicked
deriving DecidableEq

/-- `SlabFiles` (src/queuefka.go:186-192): returns the glob listing,
and calls `log.Panic(err)` if Glob reports an error. -/
def SlabFiles (fs : GoFS) (topic : String) : SlabResult :=
  match globSlabs fs topic with
  | .ok l => .files l
  | .errBadPattern => .panicked

/-- `strconv.Atoi` applied to a 20-digit slab basename, with the error
ignored as the source does: values above `2^63 - 1` overflow `int` and
Atoi then returns `maxInt64` together with the (discarded) error. -/
def atoiClamp (n : Nat) : Nat := if n ≤ 2 ^ 63 - 1 then n else 2 ^ 63 - 1

/-- Error values of the package, plus the extra I/O error kinds a
reader can surface and the modelled process-abort outcome. -/
inductive QErr where
  | invalidTopic   -- ErrInvalidTopic
  | endOfLog       -- ErrEndOfLog
  | outOfBounds    -- ErrOutOfBounds
  | badChecksum    -- ErrBadChecksum
  | ioSeekNegative -- os.File.Seek to a negative absolute offset (EINVAL)
  | ioEOF          -- io.EOF surfaced as a hard error
  | ioFailure      -- write/flush on a closed file
  | panicked       -- log.Panic / nil dereference (a process abort, not a Go error value)
deriving DecidableEq

/-- `Reader` (src/queuefka.go:35-40).  `fp` is the open slab file
(identified by its base address) with the OS file cursor position;
`rd` is the `bufio.Reader` over it with its logical read position.
`none` models a nil pointer. -/
structure Reader where
  topic : String
  base : Nat
  fp : Option (Nat × Nat)
  rd : Option (Nat × Nat)
deriving DecidableEq

/-- Current contents of the slab file with base `b` in `topic`
(the handle reads whatever the file holds now). -/
def dirData (fs : GoFS) (topic : String) (b : Nat) : List Nat :=
  match (listing fs topic).find? (fun s => s.base == b) with
  | some s => s.data
  | none => []

/-- The slab-selection loop of `Seek` (src/queuefka.go:58-67):
`cf`/`cb` are the running `slabFile` and `rd.base`; each slab whose
parsed base does not exceed `address` overwrites them, and the loop
stops at the first slab whose base exceeds `address`. -/
def scanLoop (address : Nat) : List Segment → Segment → Nat → Segment × Nat
  | [], cf, cb => (cf, cb)
  | s :: rest, cf, cb =>
    if address < atoiClamp s.base then (cf, cb)
    else scanLoop address rest s (atoiClamp s.base)

/-- `Reader.Seek` (src/queuefka.go:43-100).  Note: the listing is
taken from `r.topic`, not from the `topic` parameter; the intra-slab
seek offset is computed as `int64(rd.base - address)` (the reversed
subtraction the source contains), and `os.File.Seek` fails on a
negative absolute offset. -/
def Reader.Seek (fs : GoFS) (r : Reader) (topic : String) (address : Nat) : Reader × Option QErr :=
  -- close any existing file pointer
  let r := { r with fp := none }
  match SlabFiles fs r.topic with
  | .panicked => (r, some .panicked)
  | .files slabs =>
    match slabs with
    | [] => (r, some .invalidTopic)
    | s0 :: rest =>
      let sel := scanLoop address (s0 :: rest) s0 r.base
      let slabFile := sel.1
      let r := { r with base := sel.2, fp := some (slabFile.base, 0) }
      let size := slabFile.data.length
      if u64sub address r.base > size then (r, some .outOfBounds)
      else if u64sub address r.base = size then
        -- new buffered reader at the beginning of the reopened fp
        ({ r with rd := some (slabFile.base, 0) }, some .endOfLog)
      else
        let offset := i64ofU64 (u64sub r.base address)
        if offset < 0 then (r, some .ioSeekNegative)
        else ({ r with fp := some (slabFile.base, offset.toNat),
                       rd := some (slabFile.base, offset.toNat) }, none)

/-- `NewReader` (src/queuefka.go:103-112). -/
def NewReader (fs : GoFS) (topic : String) (address : Nat) : Reader × Option QErr :=
  let r : Reader := { topic := topic, base := 0, fp := none, rd := none }
  r.Seek fs topic address

/-- Advance both the bufio position and the file cursor by `k`
consumed bytes. -/
def Reader.advance (r : Reader) (k : Nat) : Reader :=
  { r with rd := r.rd.map (fun p => (p.1, p.2 + k)),
           fp := r.fp.map (fun p => (p.1, p.2 + k)) }

/-- Result of `Reader.Read` (Go returns `([]byte, error)`); a checksum
mismatch returns the corrupt payload together with `ErrBadChecksum`. -/
inductive ReadResult where
  | ok (payload : List Nat)
  | corrupt (payload : List Nat)
  | fail (e : QErr)
  | panicked
deriving DecidableEq

/-- A read loop with no EOF tolerance (the crc and payload loops of
`Read`, src/queuefka.go:142-159): reads exactly `n` bytes, or consumes
what is available and surfaces `io.EOF` as a hard error. -/
def readNoEof (fs : GoFS) (r : Reader) (n : Nat) : Reader × Option (List Nat) :=
  match r.rd with
  | none => (r, none)
  | some (fb, pos) =>
    let data := dirData fs r.topic fb
    if pos + n ≤ data.length then (r.advance n, some ((data.drop pos).take n))
    else (r.advance (data.length - pos), none)

/-- The tail of `Read` once the 4 length bytes are in hand
(src/queuefka.go:139-166): decode the length, read the 4 crc bytes and
the payload with no EOF tolerance, then compare checksums. -/
def readAfterLen (fs : GoFS) (hash : List Nat → Nat) (r : Reader) (lenBytes : List Nat) :
    Reader × ReadResult :=
  let dlen := getUint32LE lenBytes
  let step1 := readNoEof fs r 4
  match step1.2 with
  | none => (step1.1, .fail .ioEOF)
  | some crcBytes =>
    let xx32 := getUint32LE crcBytes
    let step2 := readNoEof fs step1.1 dlen
    match step2.2 with
    | none => (step2.1, .fail .ioEOF)
    | some buf =>
      if xx32 = Checksum32 hash buf then (step2.1, .ok buf)
      else (step2.1, .corrupt buf)

/-- The length-reading loop of `Read` (src/queuefka.go:122-138): on
`io.EOF` it re-derives the absolute address from the file cursor
(`rd.base += offset`) and re-invokes `Seek` there, propagating any
seek error (including `ErrEndOfLog`); otherwise it accumulates bytes
until 4 are in hand.  Each successful re-seek guarantees at least one
more readable byte, so the recursion depth is bounded; `fuel` is a
strict over-approximation of that bound. -/
def readLenLoop (fs : GoFS) (hash : List Nat → Nat) (r : Reader) (cnt : Nat) (acc : List Nat) :
    Nat → Reader × ReadResult
  | 0 => (r, .fail .ioFailure)
  | fuel + 1 =>
    match r.rd with
    | none => (r, .panicked)
    | some (fb, pos) =>
      let data := dirData fs r.topic fb
      if pos < data.length then
        let rx := min (4 - cnt) (data.length - pos)
        let acc := acc ++ (data.drop pos).take rx
        let r := r.advance rx
        if cnt + rx < 4 then readLenLoop fs hash r (cnt + rx) acc fuel
        else readAfterLen fs hash r acc
      else
        -- io.EOF: offset, _ := rd.fp.Seek(0, os.SEEK_CUR); rd.base += offset
        let offset := (r.fp.map Prod.snd).getD 0
        let r := { r with base := (r.base + offset) % pow64 }
        let step := r.Seek fs r.topic r.base
        match step.2 with
        | some e => (step.1, .fail e)
        | none => readLenLoop fs hash step.1 cnt acc fuel

/-- `Reader.Read` (src/queuefka.go:117-167).  A nil `bufio.Reader`
(possible when the constructing `Seek` failed before installing one)
dereferences nil and the process panics. -/
def Reader.Read (fs : GoFS) (hash : List Nat → Nat) (r : Reader) : Reader × ReadResult :=
  readLenLoop fs hash r 0 [] 16

/-- Capacity of a default `bufio.Writer`. -/
def bufCap : Nat := 4096

/-- `Writer` (src/queuefka.go:175-183).  The topic directory is kept
inside the writer as the immutable earlier slabs (`closed`) plus the
currently open slab file (`cur`, the one with the highest base);
`buf`/`bufErr` model the `bufio.Writer` over `fp`, and `curOpen`
whether `fp` is still open. -/
structure Writer where
  topic : String
  address : Nat
  base : Nat
  closed : List Segment
  cur : Segment
  curOpen : Bool
  buf : List Nat
  bufErr : Bool
  slabSizeHint : Nat
deriving DecidableEq

/-- The topic directory a writer's state denotes: all slab files in
ascending base order (flushed bytes only — `buf` is not on disk). -/
def Writer.segs (wt : Writer) : List Segment := wt.closed ++ [wt.cur]

/-- Every byte the writer has accepted, in log order: flushed slab
contents followed by the bytes still sitting in the bufio buffer. -/
def logBytes (wt : Writer) : List Nat :=
  (wt.closed.map Segment.data).flatten ++ wt.cur.data ++ wt.buf

/-- `bufio.Writer.Write` over the open slab file: sticky errors first;
a slice that fits in the free buffer space is buffered; one that does
not forces the buffered bytes (and the slice) down to the file, which
fails if the file is closed. -/
def Writer.bufWrite (wt : Writer) (p : List Nat) : Writer × Option QErr :=
  if wt.bufErr then (wt, some .ioFailure)
  else if wt.buf.length + p.length ≤ bufCap then
    ({ wt with buf := wt.buf ++ p }, none)
  else if wt.curOpen then
    ({ wt with cur := { wt.cur with data := wt.cur.data ++ wt.buf ++ p }, buf := [] }, none)
  else ({ wt with bufErr := true }, some .ioFailure)

/-- `Writer.Flush` (src/queuefka.go:320-322): `bufio.Writer.Flush`
forces the buffered bytes into the open slab file; on a closed file
the underlying write fails and the error sticks. -/
def Writer.Flush (wt : Writer) : Writer × Option QErr :=
  if wt.bufErr then (wt, some .ioFailure)
  else if wt.curOpen then
    ({ wt with cur := { wt.cur with data := wt.cur.data ++ wt.buf }, buf := [] }, none)
  else ({ wt with bufErr := true }, some .ioFailure)

/-- `Writer.create` (src/queuefka.go:220-245) as invoked from the
rollover path of `Write`: a brand-new empty slab file named with the
current `address` becomes the open slab (`base = address`), a fresh
`bufio.Writer` replaces the old one, and the previous open slab stays
on disk as an immutable earlier segment. -/
def Writer.create (wt : Writer) : Writer :=
  { wt with closed := wt.closed ++ [wt.cur],
            cur := { base := wt.address, data := [] },
            base := wt.address,
            buf := [], bufErr := false, curOpen := true }

/-- `NewWriter` (src/queuefka.go:248-263) with `Writer.load`
(src/queuefka.go:195-217) inlined: an empty directory gets a fresh
slab at base 0; otherwise the last (highest-base) slab of the sorted
listing is opened in append mode, `base` is its filename parsed by
`strconv.Atoi` (error ignored, hence clamped at `maxInt64`), and
`address = base + currentSegmentFileSize` in `uint64` arithmetic. -/
def NewWriter (dir : List Segment) (topic : String) (slabSizeHint : Nat) : Writer :=
  match dir.getLast? with
  | none =>
    { topic := topic, address := 0, base := 0, closed := [],
      cur := { base := 0, data := [] }, curOpen := true,
      buf := [], bufErr := false, slabSizeHint := slabSizeHint }
  | some latest =>
    { topic := topic,
      address := (atoiClamp latest.base + latest.data.length) % pow64,
      base := atoiClamp latest.base,
      closed := dir.dropLast, cur := latest, curOpen := true,
      buf := [], bufErr := false, slabSizeHint := slabSizeHint }

/-- `Writer.Close` (src/queuefka.go:265-268): flush (error discarded),
then release the file handle. -/
def Writer.Close (wt : Writer) : Writer × Option QErr :=
  let step := wt.Flush
  ({ step.1 with curOpen := false }, none)

/-- `Writer.Write` (src/queuefka.go:270-318): three bufio writes
(length, checksum, payload), then `address += 8 + len(d)`, then the
rollover check `address - base > slabSizeHint`; the rollover flushes
(error ignored), closes the file and creates a fresh slab at the
current address (its error ignored as well). -/
def Writer.Write (hash : List Nat → Nat) (wt : Writer) (d : List Nat) : Writer × Option QErr :=
  let s1 := wt.bufWrite (putUint32LE d.length)
  match s1.2 with
  | some e => (s1.1, some e)
  | none =>
    let s2 := s1.1.bufWrite (putUint32LE (Checksum32 hash d))
    match s2.2 with
    | some e => (s2.1, some e)
    | none =>
      let s3 := s2.1.bufWrite d
      match s3.2 with
      | some e => (s3.1, some e)
      | none =>
        let w4 := { s3.1 with address := (s3.1.address + (8 + d.length)) % pow64 }
        if u64sub w4.address w4.base > wt.slabSizeHint then
          let w5 := w4.Flush.1
          let w6 := { w5 with curOpen := false }
          (w6.create, none)
        else (w4, none)

/-- The contiguity predicate over a slab listing: each slab begins
exactly where its predecessor ends (spec §3 invariant). -/
def contiguousB : List Segment → Bool
  | a :: b :: rest => (b.base == a.base + a.data.length) && contiguousB (b :: rest)
  | _ => true

/-- Well-formedness of a writer state: slabs contiguous, `base` is the
open slab's base, `address` is the absolute end of log (open slab base
plus its flushed and buffered bytes), and no `uint64` overflow has
occurred. -/
def Writer.WF (wt : Writer) : Prop :=
  contiguousB wt.segs = true ∧
  wt.base = wt.cur.base ∧
  wt.address = wt.cur.base + wt.cur.data.length + wt.buf.length ∧
  wt.address < pow64

/-- The single-topic filesystem a writer's flushed state presents to
readers. -/
def fsOf (topic : String) (wt : Writer) : GoFS :=
  { dirs := fun t => if t = topic then some wt.segs else none,
    badPattern := fun _ => false }

/-! ### Concrete scenario states

The test payload of src/queuefka_test.go is
`value = []byte("This is only a test.")` — 20 ASCII bytes (the test
file itself records `size = 20`).  `hash0` is a concrete stand-in for
the external xxhash collaborator, used where a closed evaluation is
needed; general theorems quantify over the hash function. -/

/-- A concrete hash function instantiating the external collaborator. -/
def hash0 : List Nat → Nat := fun _ => 7

/-- The bytes of "This is only a test." (20 ASCII characters). -/
def value : List Nat :=
  [0x54, 0x68, 0x69, 0x73, 0x20, 0x69, 0x73, 0x20, 0x6f, 0x6e,
   0x6c, 0x79, 0x20, 0x61, 0x20, 0x74, 0x65, 0x73, 0x74, 0x2e]

/-- A second, different 20-byte payload. -/
def demoP2 : List Nat := List.replicate 20 0x42

/-- The test suite's 10 MiB segment size hint. -/
def bigHint : Nat := 10485760

/-- The fresh writer `NewWriter []` produces on topic "t", spelled out. -/
def freshW : Writer :=
  { topic := "t", address := 0, base := 0, closed := [],
    cur := { base := 0, data := [] }, curOpen := true,
    buf := [], bufErr := false, slabSizeHint := bigHint }

/-- Fresh topic after writing `value` and flushing: one 28-byte slab. -/
def demoW1 : Writer := (((NewWriter [] "t" bigHint).Write hash0 value).1.Flush).1

/-- .. after also writing `demoP2` and flushing: the slab holds 56 bytes,
the second record's header was written at absolute address 28. -/
def demoW2 : Writer := ((demoW1.Write hash0 demoP2).1.Flush).1

/-- The directory after the first write. -/
def demoFs1 : GoFS := fsOf "t" demoW1

/-- The directory after the second write. -/
def demoFs2 : GoFS := fsOf "t" demoW2

/-- Reader constructed at address 0 after the first write. -/
def c4r0 : Reader := (NewReader demoFs1 "t" 0).1

/-- Its first Read: returns `value`. -/
def c4read1 : Reader × ReadResult := c4r0.Read demoFs1 hash0

/-- Its second Read: the internal re-seek at the end-of-log address 28
reports `ErrEndOfLog` (and re-buffers at byte 0 of the slab). -/
def c4read2 : Reader × ReadResult := c4read1.1.Read demoFs1 hash0

/-- The same reader's next Read after the writer appended and flushed
`demoP2`. -/
def c4read3 : Reader × ReadResult := c4read2.1.Read demoFs2 hash0

/-- The writer state mid-C7-scenario (record accepted, still
buffered), for an arbitrary hash function. -/
def c7mid (hash : List Nat → Nat) : Writer :=
  { topic := "t", address := (0 + (8 + value.length)) % pow64, base := 0, closed := [],
    cur := { base := 0, data := [] }, curOpen := true,
    buf := putUint32LE value.length ++ putUint32LE (Checksum32 hash value) ++ value,
    bufErr := false, slabSizeHint := bigHint }

/-- The writer state after the C7 scenario's flush: one slab holding
exactly the 28-byte record, for an arbitrary hash function. -/
def c7done (hash : List Nat → Nat) : Writer :=
  { topic := "t", address := 28, base := 0, closed := [],
    cur := { base := 0,
             data := putUint32LE 20 ++ (putUint32LE (Checksum32 hash value) ++ value) },
    curOpen := true, buf := [], bufErr := false, slabSizeHint := bigHint }

/-- A closed writer: one record written, flushed, then `Close`d. -/
def c8closed : Writer := (demoW1.Close).1

/-- A closed writer whose bufio buffer is almost full (reachable by
writing after `Close`, since those writes are buffered without error). -/
def c8full : Writer := { c8closed with buf := List.replicate 4093 0 }

/-- A closed writer with 4080 buffered bytes: the next record's 8
header bytes still fit in the buffer, but its 20-byte payload does
not. -/
def c8mostlyFull : Writer := { c8closed with buf := List.replicate 4080 0 }

/-- A filesystem on which the glob pattern for topic "bad[" is
malformed (an unclosed character class), the only way
`filepath.Glob` reports an error. -/
def c9fs : GoFS := { dirs := fun _ => none, badPattern := fun t => t == "bad[" }

/-- A one-slab directory (28 bytes at base 0) for the C3 witness. -/
def c3fs : GoFS :=
  { dirs := fun t => if t = "w3" then some [{ base := 0, data := List.replicate 28 1 }] else none,
    badPattern := fun _ => false }

/-- A fresh reader over `c3fs`. -/
def c3r : Reader := { topic := "w3", base := 0, fp := none, rd := none }

/-! ### Arithmetic and framing lemmas -/

lemma putUint32LE_length (n : Nat) : (putUint32LE n).length = 4 := rfl

lemma frameBytes_length (hash : List Nat → Nat) (d : List Nat) :
    (frameBytes hash d).length = 8 + d.length := by
  simp [frameBytes, putUint32LE]
  omega

lemma getUint32LE_putUint32LE (n : Nat) : getUint32LE (putUint32LE n) = n % pow32 := by
  simp [getUint32LE, putUint32LE, pow32]
  omega

lemma Checksum32_lt (hash : List Nat → Nat) (d : List Nat) : Checksum32 hash d < pow32 :=
  Nat.mod_lt _ (by norm_num [pow32])

lemma getUint32LE_checksum (hash : List Nat → Nat) (d : List Nat) :
    getUint32LE (putUint32LE (Checksum32 hash d)) = Checksum32 hash d := by
  rw [getUint32LE_putUint32LE, Nat.mod_eq_of_lt (Checksum32_lt hash d)]

lemma u64sub_eq_sub {a b : Nat} (hb : b ≤ a) (ha : a < pow64) : u64sub a b = a - b := by
  have h1 : a % pow64 = a := Nat.mod_eq_of_lt ha
  have h2 : b % pow64 = b := Nat.mod_eq_of_lt (lt_of_le_of_lt hb ha)
  unfold u64sub
  rw [h1, h2]
  have h3 : a + pow64 - b = pow64 + (a - b) := by omega
  rw [h3, Nat.add_mod_left]
  exact Nat.mod_eq_of_lt (by omega)

/-! ### Writer lemmas -/

/-- A bufio write over an open file with no sticky error succeeds, and
whichever branch it takes it only moves bytes between the file and the
buffer: the concatenation `cur.data ++ buf` simply grows by `p`. -/
lemma bufWrite_ok (wt : Writer) (p : List Nat) (h0 : wt.bufErr = false) (h1 : wt.curOpen = true) :
    (wt.bufWrite p).2 = none ∧
    (wt.bufWrite p).1.cur.base = wt.cur.base ∧
    (wt.bufWrite p).1.cur.data ++ (wt.bufWrite p).1.buf = wt.cur.data ++ wt.buf ++ p ∧
    (wt.bufWrite p).1.closed = wt.closed ∧
    (wt.bufWrite p).1.topic = wt.topic ∧
    (wt.bufWrite p).1.base = wt.base ∧
    (wt.bufWrite p).1.address = wt.address ∧
    (wt.bufWrite p).1.curOpen = true ∧
    (wt.bufWrite p).1.bufErr = false ∧
    (wt.bufWrite p).1.slabSizeHint = wt.slabSizeHint := by
  unfold Writer.bufWrite
  rw [h0]
  by_cases h2 : wt.buf.length + p.length ≤ bufCap <;> simp [h1, h2]

/-- Characterization of a `Write` on an open, error-free writer: it
succeeds, advances `address` by `8 + len(d)` (mod `2^64`), appends the
frame to the log bytes, and either rolls a fresh slab at the new
address (when `address - base` exceeds the size hint) or leaves the
slab structure unchanged. -/
lemma Write_master (hash : List Nat → Nat) (wt : Writer) (d : List Nat)
    (h0 : wt.bufErr = false) (h1 : wt.curOpen = true) :
    (Writer.Write hash wt d).2 = none ∧
    (Writer.Write hash wt d).1.topic = wt.topic ∧
    (Writer.Write hash wt d).1.slabSizeHint = wt.slabSizeHint ∧
    (Writer.Write hash wt d).1.curOpen = true ∧
    (Writer.Write hash wt d).1.bufErr = false ∧
    (Writer.Write hash wt d).1.address = (wt.address + (8 + d.length)) % pow64 ∧
    logBytes (Writer.Write hash wt d).1 = logBytes wt ++ frameBytes hash d ∧
    (if u64sub ((wt.address + (8 + d.length)) % pow64) wt.base > wt.slabSizeHint then
        (Writer.Write hash wt d).1.base = (wt.address + (8 + d.length)) % pow64 ∧
        (Writer.Write hash wt d).1.cur =
          { base := (wt.address + (8 + d.length)) % pow64, data := [] } ∧
        (Writer.Write hash wt d).1.closed =
          wt.closed ++ [{ base := wt.cur.base, data := wt.cur.data ++ wt.buf ++ frameBytes hash d }] ∧
        (Writer.Write hash wt d).1.buf = []
      else
        (Writer.Write hash wt d).1.base = wt.base ∧
        (Writer.Write hash wt d).1.closed = wt.closed ∧
        (Writer.Write hash wt d).1.cur.base = wt.cur.base ∧
        (Writer.Write hash wt d).1.cur.data ++ (Writer.Write hash wt d).1.buf =
          wt.cur.data ++ wt.buf ++ frameBytes hash d) := by
  obtain ⟨e1, cb1, cd1, cl1, tp1, bs1, ad1, co1, be1, sh1⟩ :=
    bufWrite_ok wt (putUint32LE d.length) h0 h1
  obtain ⟨e2, cb2, cd2, cl2, tp2, bs2, ad2, co2, be2, sh2⟩ :=
    bufWrite_ok (wt.bufWrite (putUint32LE d.length)).1 (putUint32LE (Checksum32 hash d)) be1 co1
  obtain ⟨e3, cb3, cd3, cl3, tp3, bs3, ad3, co3, be3, sh3⟩ :=
    bufWrite_ok ((wt.bufWrite (putUint32LE d.length)).1.bufWrite
      (putUint32LE (Checksum32 hash d))).1 d be2 co2
  have hpend :
      (((wt.bufWrite (putUint32LE d.length)).1.bufWrite
          (putUint32LE (Checksum32 hash d))).1.bufWrite d).1.cur.data ++
        (((wt.bufWrite (putUint32LE d.length)).1.bufWrite
          (putUint32LE (Checksum32 hash d))).1.bufWrite d).1.buf =
      wt.cur.data ++ wt.buf ++ frameBytes hash d := by
    rw [cd3, cd2, cd1]
    simp [frameBytes, List.append_assoc]
  simp only [Writer.Write, e1, e2, e3]
  rw [ad3, ad2, ad1, bs3, bs2, bs1]
  by_cases hroll :
      u64sub ((wt.address + (8 + d.length)) % pow64) wt.base > wt.slabSizeHint
  · rw [if_pos hroll, if_pos hroll]
    refine ⟨rfl, ?_, ?_, ?_, ?_, ?_, ?_, ?_, ?_, ?_, ?_⟩ <;>
      simp [Writer.Flush, Writer.create, logBytes, be3, co3, tp1, tp2, tp3, sh1, sh2, sh3,
        cl1, cl2, cl3, cb1, cb2, cb3, hpend, List.append_assoc]
  · rw [if_neg hroll, if_neg hroll]
    refine ⟨rfl, ?_, ?_, ?_, ?_, ?_, ?_, ?_, ?_, ?_, ?_⟩ <;>
      simp [logBytes, be3, co3, tp1, tp2, tp3, sh1, sh2, sh3,
        cl1, cl2, cl3, cb1, cb2, cb3, bs1, bs2, bs3, hpend, List.append_assoc]

/-! ### Contiguity lemmas -/

lemma contiguousB_cons_cons (a b : Segment) (l : List Segment) :
    contiguousB (a :: b :: l) = ((b.base == a.base + a.data.length) && contiguousB (b :: l)) :=
  rfl

/-- `contiguousB` looks at the last slab only through its base. -/
lemma contiguousB_concat_congr (l : List Segment) (a b : Segment) (hab : a.base = b.base) :
    contiguousB (l ++ [a]) = contiguousB (l ++ [b]) := by
  induction l with
  | nil => rfl
  | cons x xs ih =>
    cases xs with
    | nil => simp [contiguousB, hab]
    | cons y ys =>
      simp only [List.cons_append] at ih ⊢
      rw [contiguousB_cons_cons, contiguousB_cons_cons, ih]

/-- Appending a slab that starts exactly where the last one ends
preserves contiguity. -/
lemma contiguousB_concat (l : List Segment) (a b : Segment)
    (h : contiguousB (l ++ [a]) = true) (hb : b.base = a.base + a.data.length) :
    contiguousB ((l ++ [a]) ++ [b]) = true := by
  induction l with
  | nil => simp [contiguousB, hb]
  | cons x xs ih =>
    cases xs with
    | nil =>
      simp only [List.cons_append, List.nil_append] at h ⊢
      rw [contiguousB_cons_cons] at h
      simp only [Bool.and_eq_true] at h
      rw [contiguousB_cons_cons]
      simp only [Bool.and_eq_true]
      exact ⟨h.1, by rw [contiguousB_cons_cons]; simp [hb, contiguousB]⟩
    | cons y ys =>
      simp only [List.cons_append] at h ih ⊢
      rw [contiguousB_cons_cons] at h
      simp only [Bool.and_eq_true] at h
      rw [contiguousB_cons_cons]
      simp only [Bool.and_eq_true]
      exact ⟨h.1, by simpa using ih (by simpa using h.2)⟩

/-- In a contiguous listing every slab's base is bounded by the last
slab's base: the open slab has the highest base address. -/
lemma contiguousB_le (l : List Segment) (a : Segment)
    (h : contiguousB (l ++ [a]) = true) : ∀ s ∈ l, s.base ≤ a.base := by
  induction l with
  | nil => intro s hs; simp at hs
  | cons x xs ih =>
    intro s hs
    have hrel : ∀ y rest, xs ++ [a] = y :: rest →
        x.base ≤ y.base ∧ contiguousB (xs ++ [a]) = true := by
      intro y rest hy
      rw [List.cons_append, hy, contiguousB_cons_cons] at h
      simp only [Bool.and_eq_true, beq_iff_eq] at h
      rw [hy]
      refine ⟨by omega, by simp [contiguousB, h.2]⟩
    rcases List.mem_cons.mp hs with hs | hs
    · subst hs
      cases xs with
      | nil =>
        obtain ⟨hle, _⟩ := hrel a [] rfl
        exact hle
      | cons y ys =>
        obtain ⟨hle, hc⟩ := hrel y (ys ++ [a]) (by simp)
        have := ih hc y (by simp)
        omega
    · cases xs with
      | nil => simp at hs
      | cons y ys =>
        obtain ⟨_, hc⟩ := hrel y (ys ++ [a]) (by simp)
        exact ih hc s hs

/-- C5: After every successful `Write` for which `address - base`
exceeds the configured size hint, the writer flushes and closes the
current segment and creates a new segment whose base address equals
the current `address`; consequently consecutive segments satisfy
`B(i+1) = Bi + Si` — segments are contiguous, with no gaps or
overlaps (and this contiguity is preserved as an invariant of the
well-formed writer state). -/
theorem write_rollover_contiguity (hash : List Nat → Nat) (wt : Writer) (d : List Nat)
    (hwf : wt.WF) (h1 : wt.curOpen = true) (h0 : wt.bufErr = false)
    (hov : wt.address + (8 + d.length) < pow64) :
    (Writer.Write hash wt d).2 = none ∧
    (Writer.Write hash wt d).1.WF ∧
    contiguousB (Writer.Write hash wt d).1.segs = true ∧
    (wt.slabSizeHint < wt.address + (8 + d.length) - wt.base →
      (Writer.Write hash wt d).1.base = wt.address + (8 + d.length) ∧
      (Writer.Write hash wt d).1.cur =
        { base := wt.address + (8 + d.length), data := [] } ∧
      (Writer.Write hash wt d).1.closed =
        wt.closed ++ [{ base := wt.base, data := wt.cur.data ++ wt.buf ++ frameBytes hash d }]) := by
  obtain ⟨hchain, hb, ha, hlt⟩ := hwf
  obtain ⟨e, htp, hsh, hco, hbe, had, hlog, hcond⟩ := Write_master hash wt d h0 h1
  have hA : (wt.address + (8 + d.length)) % pow64 = wt.address + (8 + d.length) :=
    Nat.mod_eq_of_lt hov
  have hble : wt.base ≤ wt.address + (8 + d.length) := by omega
  have hsub : u64sub ((wt.address + (8 + d.length)) % pow64) wt.base =
      wt.address + (8 + d.length) - wt.base := by
    rw [hA]; exact u64sub_eq_sub hble hov
  by_cases hrc :
      u64sub ((wt.address + (8 + d.length)) % pow64) wt.base > wt.slabSizeHint
  · -- rollover branch
    rw [if_pos hrc] at hcond
    obtain ⟨hbase, hcur, hclosed, hbuf⟩ := hcond
    have hfull : contiguousB (wt.closed ++
        [{ base := wt.cur.base, data := wt.cur.data ++ wt.buf ++ frameBytes hash d }]) = true := by
      rw [contiguousB_concat_congr wt.closed
        { base := wt.cur.base, data := wt.cur.data ++ wt.buf ++ frameBytes hash d } wt.cur rfl]
      simpa [Writer.segs] using hchain
    have hlink : ((wt.address + (8 + d.length)) % pow64) =
        wt.cur.base + (wt.cur.data ++ wt.buf ++ frameBytes hash d).length := by
      rw [hA]
      simp [frameBytes_length]
      omega
    have hcont : contiguousB (Writer.Write hash wt d).1.segs = true := by
      unfold Writer.segs
      rw [hclosed, hcur]
      exact contiguousB_concat _ _ _ hfull (by simpa using hlink)
    refine ⟨e, ⟨hcont, ?_, ?_, ?_⟩, hcont, fun _ => ⟨by rw [hbase, hA], by rw [hcur, hA], by rw [hclosed, hb]⟩⟩
    · rw [hbase, hcur]
    · rw [had, hcur, hbuf]
      simp
    · rw [had, hA]; exact hov
  · -- no rollover
    rw [if_neg hrc] at hcond
    obtain ⟨hbase, hclosed, hcurbase, hpend⟩ := hcond
    have hlen : (Writer.Write hash wt d).1.cur.data.length +
        (Writer.Write hash wt d).1.buf.length =
        wt.cur.data.length + wt.buf.length + (8 + d.length) := by
      have := congrArg List.length hpend
      simp [frameBytes_length] at this
      omega
    have hcont : contiguousB (Writer.Write hash wt d).1.segs = true := by
      unfold Writer.segs
      rw [hclosed]
      calc contiguousB (wt.closed ++ [(Writer.Write hash wt d).1.cur])
          = contiguousB (wt.closed ++ [wt.cur]) :=
            contiguousB_concat_congr _ _ _ hcurbase
        _ = true := hchain
    refine ⟨e, ⟨hcont, ?_, ?_, ?_⟩, hcont, fun hr => absurd (by rw [hsub]; exact hr) hrc⟩
    · rw [hbase, hb, hcurbase]
    · rw [had, hA, hcurbase, ha]
      omega
    · rw [had, hA]; exact hov

/-- Witness for C5: a fresh writer with size hint 5 rolls over on the
very first 28-byte record, the new slab starting at base 28, and the
resulting slab listing is contiguous. -/
theorem write_rollover_contiguity_witness :
    (Writer.Write hash0 (NewWriter [] "w" 5) value).2 = none ∧
    (Writer.Write hash0 (NewWriter [] "w" 5) value).1.base = 28 ∧
    contiguousB (Writer.Write hash0 (NewWriter [] "w" 5) value).1.segs = true := by
  have h := write_rollover_contiguity hash0 (NewWriter [] "w" 5) value
    ⟨rfl, rfl, rfl, by decide⟩ rfl rfl (by decide)
  exact ⟨h.1, (h.2.2.2 (by decide)).1, h.2.2.1⟩

/-- A flush on an open, error-free writer moves the buffered bytes
into the open slab file. -/
lemma Flush_ok (wt : Writer) (h0 : wt.bufErr = false) (h1 : wt.curOpen = true) :
    wt.Flush = ({ wt with cur := { wt.cur with data := wt.cur.data ++ wt.buf }, buf := [] },
      none) := by
  unfold Writer.Flush
  rw [h0]
  simp [h1]

/-- `Close` on an open, error-free writer: flush, then drop the handle. -/
lemma Close_ok (wt : Writer) (h0 : wt.bufErr = false) (h1 : wt.curOpen = true) :
    (wt.Close).1 =
      { wt with cur := { wt.cur with data := wt.cur.data ++ wt.buf },
                buf := [], curOpen := false } := by
  unfold Writer.Close
  rw [Flush_ok wt h0 h1]

/-- C6: for a topic that already has segments, `NewWriter` opens the
highest-base segment in append mode, sets `base` to its
filename-encoded base address and `address` to `base` plus its file
size; so closing a Writer and constructing a new one resumes appending
exactly at the previous end-of-log address, a subsequent write only
appending the new frame after the previously written bytes. -/
theorem newWriter_resumes (wt : Writer) (hint : Nat)
    (hwf : wt.WF) (h1 : wt.curOpen = true) (h0 : wt.bufErr = false)
    (hbase : wt.cur.base < 2 ^ 63) :
    (NewWriter ((wt.Close).1.segs) wt.topic hint).address = wt.address ∧
    (NewWriter ((wt.Close).1.segs) wt.topic hint).base = wt.cur.base ∧
    (NewWriter ((wt.Close).1.segs) wt.topic hint).cur = (wt.Close).1.cur ∧
    (∀ s ∈ (wt.Close).1.closed, s.base ≤ (NewWriter ((wt.Close).1.segs) wt.topic hint).base) ∧
    logBytes (NewWriter ((wt.Close).1.segs) wt.topic hint) = logBytes wt ∧
    (∀ (hash : List Nat → Nat) (d : List Nat),
      (Writer.Write hash (NewWriter ((wt.Close).1.segs) wt.topic hint) d).2 = none ∧
      logBytes (Writer.Write hash (NewWriter ((wt.Close).1.segs) wt.topic hint) d).1 =
        logBytes wt ++ frameBytes hash d) := by
  obtain ⟨hchain, hb, ha, hlt⟩ := hwf
  have hclose := Close_ok wt h0 h1
  have hsegs : (wt.Close).1.segs =
      wt.closed ++ [{ base := wt.cur.base, data := wt.cur.data ++ wt.buf }] := by
    rw [hclose]; rfl
  have hnw : NewWriter ((wt.Close).1.segs) wt.topic hint =
      { topic := wt.topic,
        address := (atoiClamp wt.cur.base + (wt.cur.data ++ wt.buf).length) % pow64,
        base := atoiClamp wt.cur.base,
        closed := wt.closed,
        cur := { base := wt.cur.base, data := wt.cur.data ++ wt.buf },
        curOpen := true, buf := [], bufErr := false, slabSizeHint := hint } := by
    rw [hsegs]
    unfold NewWriter
    rw [List.getLast?_concat, List.dropLast_concat]
  have hclamp : atoiClamp wt.cur.base = wt.cur.base := by
    unfold atoiClamp
    rw [if_pos (by omega)]
  have haddr : (atoiClamp wt.cur.base + (wt.cur.data ++ wt.buf).length) % pow64 =
      wt.address := by
    rw [hclamp]
    simp only [List.length_append]
    have : wt.cur.base + (wt.cur.data.length + wt.buf.length) = wt.address := by omega
    rw [this]
    exact Nat.mod_eq_of_lt hlt
  have hlog2 : logBytes (NewWriter ((wt.Close).1.segs) wt.topic hint) = logBytes wt := by
    rw [hnw]
    simp [logBytes, List.append_assoc]
  refine ⟨by rw [hnw]; exact haddr, by rw [hnw]; exact hclamp, ?_, ?_, hlog2, ?_⟩
  · rw [hnw, hclose]
  · intro s hs
    rw [hnw]
    have hs' : s ∈ wt.closed := by
      rw [hclose] at hs
      exact hs
    have := contiguousB_le wt.closed wt.cur (by simpa [Writer.segs] using hchain) s hs'
    simpa [hclamp] using this
  · intro hash d
    have hm := Write_master hash (NewWriter ((wt.Close).1.segs) wt.topic hint) d
      (by rw [hnw]) (by rw [hnw])
    exact ⟨hm.1, by rw [hm.2.2.2.2.2.2.1, hlog2]⟩

/-- Witness for C6: after one record the reconstructed writer resumes
at address 28 with the same log bytes. -/
theorem newWriter_resumes_witness :
    (NewWriter ((demoW1.Close).1.segs) demoW1.topic bigHint).address = demoW1.address ∧
    logBytes (NewWriter ((demoW1.Close).1.segs) demoW1.topic bigHint) = logBytes demoW1 := by
  have h := newWriter_resumes demoW1 bigHint ⟨by decide, by decide, by decide, by decide⟩
    (by decide) (by decide) (by decide)
  exact ⟨h.1, h.2.2.2.2.1⟩

/-! ### Reader lemmas -/

/-- C3: once `Seek` has selected the slab `seg` and set the reader
base `b`, an intra-slab offset strictly greater than the file size
fails with `ErrOutOfBounds`, while an offset exactly equal to the file
size establishes a valid reader state (open file, fresh bufio) and
reports `ErrEndOfLog` — a value distinct from `ErrOutOfBounds` and
from every hard I/O error kind. -/
theorem seek_bounds (fs : GoFS) (r : Reader) (t : String) (address : Nat)
    (hnb : fs.badPattern r.topic = false)
    (s0 : Segment) (rest : List Segment) (hl : listing fs r.topic = s0 :: rest)
    (seg : Segment) (b : Nat)
    (hscan : scanLoop address (s0 :: rest) s0 r.base = (seg, b)) :
    (seg.data.length < u64sub address b →
      (r.Seek fs t address).2 = some QErr.outOfBounds) ∧
    (u64sub address b = seg.data.length →
      r.Seek fs t address =
        ({ r with base := b, fp := some (seg.base, 0), rd := some (seg.base, 0) },
         some QErr.endOfLog)) ∧
    QErr.endOfLog ≠ QErr.outOfBounds ∧
    QErr.endOfLog ≠ QErr.ioSeekNegative ∧
    QErr.endOfLog ≠ QErr.ioEOF ∧
    QErr.endOfLog ≠ QErr.ioFailure ∧
    QErr.endOfLog ≠ QErr.invalidTopic := by
  have hsf : SlabFiles fs r.topic = .files (s0 :: rest) := by
    simp [SlabFiles, globSlabs, hnb, hl]
  have hred : r.Seek fs t address =
      (if u64sub address b > seg.data.length then
        ({ r with base := b, fp := some (seg.base, 0) }, some QErr.outOfBounds)
      else if u64sub address b = seg.data.length then
        ({ r with base := b, fp := some (seg.base, 0), rd := some (seg.base, 0) },
          some QErr.endOfLog)
      else if i64ofU64 (u64sub b address) < 0 then
        ({ r with base := b, fp := some (seg.base, 0) }, some QErr.ioSeekNegative)
      else
        ({ r with base := b, fp := some (seg.base, (i64ofU64 (u64sub b address)).toNat),
                  rd := some (seg.base, (i64ofU64 (u64sub b address)).toNat) }, none)) := by
    simp only [Reader.Seek, hsf, hscan]
  refine ⟨?_, ?_, by decide, by decide, by decide, by decide, by decide⟩
  · intro h
    rw [hred, if_pos h]
  · intro h
    rw [hred, if_neg (by omega), if_pos h]

/-- Witness for C3: over a one-slab topic of 28 bytes, seeking to the
exact end address 28 yields `ErrEndOfLog` with a positioned reader,
and (applying the same theorem at address 57) seeking past the end
yields `ErrOutOfBounds`. -/
theorem seek_bounds_witness :
    c3r.Seek c3fs "w3" 28 =
      ({ c3r with base := 0, fp := some (0, 0), rd := some (0, 0) }, some QErr.endOfLog) ∧
    (c3r.Seek c3fs "w3" 57).2 = some QErr.outOfBounds := by
  have h28 := seek_bounds c3fs c3r "w3" 28 rfl
    { base := 0, data := List.replicate 28 1 } [] rfl
    { base := 0, data := List.replicate 28 1 } 0 rfl
  have h57 := seek_bounds c3fs c3r "w3" 57 rfl
    { base := 0, data := List.replicate 28 1 } [] rfl
    { base := 0, data := List.replicate 28 1 } 0 rfl
  exact ⟨h28.2.1 (by decide), h57.1 (by decide)⟩

/-- `Seek` never changes the reader's stored topic path. -/
lemma Seek_topic (fs : GoFS) (r : Reader) (t : String) (address : Nat) :
    (r.Seek fs t address).1.topic = r.topic := by
  simp only [Reader.Seek]
  rcases hsf : SlabFiles fs r.topic with l | _
  · cases l with
    | nil => simp [hsf]
    | cons s0 rest =>
      simp only [hsf]
      split_ifs <;> rfl
  · simp [hsf]

/-- C10: `Reader.Seek` ignores its `topic` parameter — the outcome is
identical for every argument value, the slab listing being taken from
the topic path stored in the reader when it was constructed (which
`NewReader` records and `Seek` preserves). -/
theorem seek_ignores_topic (fs : GoFS) (r : Reader) (address : Nat) (t1 t2 : String) :
    r.Seek fs t1 address = r.Seek fs t2 address ∧
    (NewReader fs t1 address).1.topic = t1 ∧
    (r.Seek fs t1 address).1.topic = r.topic := by
  exact ⟨rfl, Seek_topic fs { topic := t1, base := 0, fp := none, rd := none } t1 address,
    Seek_topic fs r t1 address⟩

/-! ### The reversed-subtraction seek defect and its consequences -/

/-- C1 (code bug): after two records, the second record's header sits
at absolute address 28 in the slab with base 0, but seeking there
computes the file offset as `int64(base - address) = -28`, the OS seek
fails, `Seek` returns an error, and the reader (whose bufio was never
installed) panics on `Read` instead of returning the payload. -/
theorem roundtrip_seek_fails :
    (NewReader demoFs2 "t" 28).2 = some QErr.ioSeekNegative ∧
    i64ofU64 (u64sub 0 28) = -28 ∧
    ((NewReader demoFs2 "t" 28).1.Read demoFs2 hash0).2 = ReadResult.panicked := by
  decide

/-- C2 (code bug): for `Seek("t", 28)` with selected base 0 and file
size 56 the intra-segment offset 28 is strictly inside the file, yet
the cursor is left at byte 0 (the failed negative seek does not move
it) and `Seek` returns an error instead of success. -/
theorem seek_offset_reversed :
    28 < (dirData demoFs2 "t" 0).length ∧
    (NewReader demoFs2 "t" 28).1.fp = some (0, 0) ∧
    (NewReader demoFs2 "t" 28).1.rd = none ∧
    (NewReader demoFs2 "t" 28).2 ≠ none := by
  decide

/-- C4 (code bug): a read at the end-of-log address yields the
EndOfLog signal (not a hard error) — but it also re-buffers the reader
at byte 0 of the reopened slab, so after the writer appends and
flushes a second record the same reader's next `Read` returns the
first record's payload again, not the newly written `demoP2`. -/
theorem endOfLog_reread_returns_old :
    c4read1.2 = ReadResult.ok value ∧
    c4read2.2 = ReadResult.fail QErr.endOfLog ∧
    c4read3.2 = ReadResult.ok value ∧
    value ≠ demoP2 := by
  decide

/-! ### The concrete write/read scenario -/

/-- C7 counterexample: the payload "This is only a test." is 20 bytes,
not 21, so the on-disk length field of its record is `14 00 00 00`,
not `15 00 00 00`. -/
theorem record_header_not_21 :
    value.length = 20 ∧
    value.length ≠ 21 ∧
    demoW1.cur.data.take 4 = [0x14, 0, 0, 0] ∧
    demoW1.cur.data.take 4 ≠ [0x15, 0, 0, 0] := by
  decide

lemma value_length : value.length = 20 := rfl

/-- A bufio write that fits entirely in the free buffer space just
appends to the buffer, whatever the state of the underlying file. -/
lemma bufWrite_buffered (wt : Writer) (p : List Nat) (hbe : wt.bufErr = false)
    (hfit : wt.buf.length + p.length ≤ bufCap) :
    wt.bufWrite p = ({ wt with buf := wt.buf ++ p }, none) := by
  unfold Writer.bufWrite
  rw [hbe]
  simp [hfit]

/-- `NewWriter` on an empty directory, spelled out. -/
lemma NewWriter_nil : NewWriter [] "t" bigHint = freshW := rfl

/-- Writing `value` to the fresh writer accepts the frame into the
bufio buffer and advances the address to 28. -/
lemma c7_write_eq (hash : List Nat → Nat) :
    Writer.Write hash freshW value = (c7mid hash, none) := by
  have e1 : freshW.bufWrite (putUint32LE value.length) =
      ({ topic := "t", address := 0, base := 0, closed := [],
         cur := { base := 0, data := [] }, curOpen := true,
         buf := putUint32LE value.length, bufErr := false,
         slabSizeHint := bigHint }, none) := rfl
  have e2 :
      ({ topic := "t", address := 0, base := 0, closed := [],
         cur := { base := 0, data := [] }, curOpen := true,
         buf := putUint32LE value.length, bufErr := false,
         slabSizeHint := bigHint } : Writer).bufWrite (putUint32LE (Checksum32 hash value)) =
      ({ topic := "t", address := 0, base := 0, closed := [],
         cur := { base := 0, data := [] }, curOpen := true,
         buf := putUint32LE value.length ++ putUint32LE (Checksum32 hash value),
         bufErr := false, slabSizeHint := bigHint }, none) := rfl
  have e3 :
      ({ topic := "t", address := 0, base := 0, closed := [],
         cur := { base := 0, data := [] }, curOpen := true,
         buf := putUint32LE value.length ++ putUint32LE (Checksum32 hash value),
         bufErr := false, slabSizeHint := bigHint } : Writer).bufWrite value =
      ({ topic := "t", address := 0, base := 0, closed := [],
         cur := { base := 0, data := [] }, curOpen := true,
         buf := putUint32LE value.length ++ putUint32LE (Checksum32 hash value) ++ value,
         bufErr := false, slabSizeHint := bigHint }, none) := rfl
  simp only [Writer.Write, e1, e2, e3]
  rw [if_neg (show ¬ u64sub ((0 + (8 + value.length)) % pow64) 0 > freshW.slabSizeHint by
    decide)]
  rfl

/-- The flushed writer of the C7 scenario, reached from the fresh
writer by one `Write` and one `Flush`. -/
lemma c7_flushed_eq (hash : List Nat → Nat) :
    (Writer.Write hash (NewWriter [] "t" bigHint) value).1.Flush.1 = c7done hash := by
  have h1 : Writer.Write hash (NewWriter [] "t" bigHint) value = (c7mid hash, none) := by
    simp only [NewWriter_nil]
    exact c7_write_eq hash
  have h2 : (Writer.Write hash (NewWriter [] "t" bigHint) value).1 = c7mid hash := by
    rw [h1]
  have h3 : (Writer.Write hash (NewWriter [] "t" bigHint) value).1.Flush =
      (c7done hash, none) := by
    rw [h2]
    rfl
  rw [h3]

/-- Reading the 4 length bytes of a frame laid down by `Write` is
just the frame's first 4-element chunk (structural, entry-agnostic). -/
lemma take4_putUint32LE (n : Nat) (xs : List Nat) :
    (putUint32LE n ++ xs).take 4 = putUint32LE n := rfl

/-- Dropping a 4-byte chunk of a frame. -/
lemma drop4_putUint32LE (n : Nat) (xs : List Nat) :
    (putUint32LE n ++ xs).drop 4 = xs := rfl

/-- Reading one whole record: a reader whose bufio sits at offset 0 of
a slab whose current contents are exactly one frame for payload `P`
returns `P` with no error. -/
lemma Read_one_record (fs : GoFS) (hash : List Nat → Nat) (r : Reader) (fb : Nat)
    (P : List Nat) (hrd : r.rd = some (fb, 0))
    (hdata : dirData fs r.topic fb =
      putUint32LE P.length ++ (putUint32LE (Checksum32 hash P) ++ P))
    (hP : P.length < pow32) :
    (r.Read fs hash).2 = ReadResult.ok P := by
  have hlen : (putUint32LE P.length ++ (putUint32LE (Checksum32 hash P) ++ P)).length =
      8 + P.length := by
    simp only [List.length_append, putUint32LE_length]
    omega
  have hrd1 : (r.advance 4).rd = some (fb, 4) := by simp [Reader.advance, hrd]
  have hrd2 : ((r.advance 4).advance 4).rd = some (fb, 8) := by simp [Reader.advance, hrd]
  have htp1 : (r.advance 4).topic = r.topic := rfl
  have htp2 : ((r.advance 4).advance 4).topic = r.topic := rfl
  rw [Reader.Read, show (16 : Nat) = 15 + 1 from rfl, readLenLoop, hrd]
  simp only [hdata, hlen]
  rw [if_pos (by omega)]
  have hrx : min (4 - 0) (8 + P.length - 0) = 4 := by omega
  simp only [hrx, List.drop_zero, take4_putUint32LE, List.nil_append]
  rw [if_neg (by omega)]
  rw [readAfterLen]
  rw [readNoEof, hrd1, htp1]
  simp only [hdata, hlen]
  rw [if_pos (by omega)]
  simp only [drop4_putUint32LE, take4_putUint32LE]
  rw [readNoEof, hrd2, htp2]
  simp only [hdata, hlen]
  rw [getUint32LE_putUint32LE, Nat.mod_eq_of_lt hP]
  rw [if_pos (by omega)]
  have hdrop8 : (putUint32LE P.length ++ (putUint32LE (Checksum32 hash P) ++ P)).drop 8 = P := by
    rw [show (8 : Nat) = 4 + 4 from rfl, ← List.drop_drop, drop4_putUint32LE,
      drop4_putUint32LE]
  simp only [hdrop8, List.take_length, getUint32LE_checksum]
  simp

/-- `Seek` at an address that is exactly the selected slab's parsed
base, with data present: the reversed subtraction is `base - address
 = 0` here, so the seek succeeds and positions the cursor at 0. -/
lemma seek_at_base (fs : GoFS) (r : Reader) (t : String) (address : Nat)
    (hnb : fs.badPattern r.topic = false)
    (s0 : Segment) (rest : List Segment) (hl : listing fs r.topic = s0 :: rest)
    (seg : Segment) (hscan : scanLoop address (s0 :: rest) s0 r.base = (seg, address))
    (hlen : 0 < seg.data.length) :
    r.Seek fs t address =
      ({ r with base := address, fp := some (seg.base, 0), rd := some (seg.base, 0) },
       none) := by
  have hsf : SlabFiles fs r.topic = .files (s0 :: rest) := by
    simp [SlabFiles, globSlabs, hnb, hl]
  have hz : u64sub address address = 0 := by
    have h : address % pow64 + pow64 - address % pow64 = pow64 := by omega
    rw [u64sub, h, Nat.mod_self]
  have hoff : i64ofU64 0 = 0 := by decide
  simp only [Reader.Seek, hsf, hscan, hz, hoff]
  rw [if_neg (by omega), if_neg (by omega), if_neg (by omega)]
  rfl

/-- C7 (amended): writing the 20-byte payload "This is only a test."
to a fresh topic produces the on-disk record `14 00 00 00` (length =
20, unsigned little-endian) ++ 4-byte little-endian checksum ++ the 20
ASCII payload bytes, and a `Read` at address 0 returns the 20-byte
payload unchanged — for every hash function the external xxhash
collaborator might be. -/
theorem record_roundtrip_20 (hash : List Nat → Nat) :
    (Writer.Write hash (NewWriter [] "t" bigHint) value).1.Flush.1.cur.data =
      putUint32LE 20 ++ (putUint32LE (Checksum32 hash value) ++ value) ∧
    value.length = 20 ∧
    (NewReader (fsOf "t" (Writer.Write hash (NewWriter [] "t" bigHint) value).1.Flush.1)
      "t" 0).2 = none ∧
    ((NewReader (fsOf "t" (Writer.Write hash (NewWriter [] "t" bigHint) value).1.Flush.1)
        "t" 0).1.Read
      (fsOf "t" (Writer.Write hash (NewWriter [] "t" bigHint) value).1.Flush.1) hash).2 =
      ReadResult.ok value := by
  have hw5 := c7_flushed_eq hash
  have hlist : listing (fsOf "t" (c7done hash)) "t" =
      [{ base := 0,
         data := putUint32LE 20 ++ (putUint32LE (Checksum32 hash value) ++ value) }] := by
    simp [listing, fsOf, Writer.segs, c7done]
  have hseek := seek_at_base (fsOf "t" (c7done hash))
    { topic := "t", base := 0, fp := none, rd := none } "t" 0 rfl
    { base := 0, data := putUint32LE 20 ++ (putUint32LE (Checksum32 hash value) ++ value) }
    [] hlist
    { base := 0, data := putUint32LE 20 ++ (putUint32LE (Checksum32 hash value) ++ value) }
    rfl (by simp only [List.length_append, putUint32LE_length]; omega)
  have hnr : NewReader (fsOf "t" (c7done hash)) "t" 0 =
      ({ topic := "t", base := 0, fp := some (0, 0), rd := some (0, 0) }, none) := by
    simp only [NewReader]
    rw [hseek]
  refine ⟨?_, value_length, ?_, ?_⟩
  · rw [hw5]
    rfl
  · rw [hw5, hnr]
  · rw [hw5, hnr]
    refine Read_one_record (fsOf "t" (c7done hash)) hash _ 0 value rfl ?_ (by decide)
    simp [dirData, hlist]
    rw [value_length]

/-! ### Writing after Close -/

/-- A bufio write returns either success or the I/O failure of a
flush; nothing in the write path can panic. -/
lemma bufWrite_snd (wt : Writer) (p : List Nat) :
    (wt.bufWrite p).2 = none ∨ (wt.bufWrite p).2 = some QErr.ioFailure := by
  unfold Writer.bufWrite
  split_ifs <;> simp

/-- `Write` returns either success or an I/O failure — in particular
it never panics and never produces any other error kind. -/
lemma Write_snd (hash : List Nat → Nat) (wt : Writer) (d : List Nat) :
    (Writer.Write hash wt d).2 = none ∨ (Writer.Write hash wt d).2 = some QErr.ioFailure := by
  rcases bufWrite_snd wt (putUint32LE d.length) with h1 | h1
  · rcases bufWrite_snd (wt.bufWrite (putUint32LE d.length)).1
        (putUint32LE (Checksum32 hash d)) with h2 | h2
    · rcases bufWrite_snd ((wt.bufWrite (putUint32LE d.length)).1.bufWrite
          (putUint32LE (Checksum32 hash d))).1 d with h3 | h3
      · simp only [Writer.Write, h1, h2, h3]
        split_ifs <;> simp
      · simp [Writer.Write, h1, h2, h3]
    · simp [Writer.Write, h1, h2]
  · simp [Writer.Write, h1]

/-- A bufio write that does not fit while the file is closed: the
flush attempt fails and the error sticks. -/
lemma bufWrite_closed_overflow (wt : Writer) (p : List Nat) (hbe : wt.bufErr = false)
    (hcl : wt.curOpen = false) (hnofit : bufCap < wt.buf.length + p.length) :
    wt.bufWrite p = ({ wt with bufErr := true }, some QErr.ioFailure) := by
  unfold Writer.bufWrite
  rw [hbe, hcl]
  simp only [Bool.false_eq_true, if_false]
  rw [if_neg (by omega)]

/-- C8 counterexample: on a closed writer (one record written, then
`Close`), a subsequent `Write` of the same 20-byte payload returns
success (`nil` error), because the bytes are merely buffered — the
claim that every post-Close Write fails is false. -/
theorem write_after_close_succeeds :
    c8closed.curOpen = false ∧
    (Writer.Write hash0 c8closed value).2 = none := by
  decide

/-- C8 (amended): after `Close`, a `Write` never panics; it returns
success whenever the framed record still fits into the bufio buffer's
free space (the bytes are buffered and may never reach disk), and it
returns an I/O error when the write must flush the buffer to the
closed file. -/
theorem write_after_close (hash : List Nat → Nat) (wt : Writer) (d : List Nat)
    (hclosed : wt.curOpen = false) (hbe : wt.bufErr = false) :
    (Writer.Write hash wt d).2 ≠ some QErr.panicked ∧
    (wt.buf.length + (8 + d.length) ≤ bufCap → (Writer.Write hash wt d).2 = none) ∧
    (bufCap < wt.buf.length + (8 + d.length) →
      (Writer.Write hash wt d).2 = some QErr.ioFailure) := by
  refine ⟨?_, ?_, ?_⟩
  · intro hp
    rcases Write_snd hash wt d with h | h <;> rw [h] at hp <;> simp at hp
  · intro hfit
    have e1 := bufWrite_buffered wt (putUint32LE d.length) hbe
      (by rw [putUint32LE_length]; omega)
    have e2 := bufWrite_buffered { wt with buf := wt.buf ++ putUint32LE d.length }
      (putUint32LE (Checksum32 hash d)) hbe
      (by simp only [putUint32LE_length, List.length_append]; omega)
    have e3 := bufWrite_buffered
      { wt with buf := wt.buf ++ putUint32LE d.length ++ putUint32LE (Checksum32 hash d) }
      d hbe
      (by simp only [putUint32LE_length, List.length_append]; omega)
    simp only [Writer.Write, e1, e2, e3]
    split_ifs <;> rfl
  · intro hbig
    by_cases h4 : bufCap < wt.buf.length + 4
    · -- even the 4 length bytes overflow the buffer
      have e1 := bufWrite_closed_overflow wt (putUint32LE d.length) hbe hclosed
        (by rw [putUint32LE_length]; omega)
      simp [Writer.Write, e1]
    · by_cases h8 : bufCap < wt.buf.length + 8
      · -- the length bytes fit but the checksum bytes force a flush
        have e1 := bufWrite_buffered wt (putUint32LE d.length) hbe
          (by rw [putUint32LE_length]; omega)
        have e2 := bufWrite_closed_overflow
          { wt with buf := wt.buf ++ putUint32LE d.length }
          (putUint32LE (Checksum32 hash d)) hbe hclosed
          (by simp only [putUint32LE_length, List.length_append]; omega)
        simp [Writer.Write, e1, e2]
      · -- the 8 header bytes fit but the payload forces a flush
        have e1 := bufWrite_buffered wt (putUint32LE d.length) hbe
          (by rw [putUint32LE_length]; omega)
        have e2 := bufWrite_buffered { wt with buf := wt.buf ++ putUint32LE d.length }
          (putUint32LE (Checksum32 hash d)) hbe
          (by simp only [putUint32LE_length, List.length_append]; omega)
        have e3 := bufWrite_closed_overflow
          { wt with buf := wt.buf ++ putUint32LE d.length ++ putUint32LE (Checksum32 hash d) }
          d hbe hclosed
          (by simp only [putUint32LE_length, List.length_append]; omega)
        simp only [Writer.Write, e1, e2, e3]

/-- Witness for C8: the closed demo writer accepts a buffered `Write`
with success; the closed writer whose buffer has room for the header
but not the payload fails with an I/O error, as does the one whose
buffer cannot even take the 4 length bytes. -/
theorem write_after_close_witness :
    (Writer.Write hash0 c8closed value).2 = none ∧
    (Writer.Write hash0 c8mostlyFull value).2 = some QErr.ioFailure ∧
    (Writer.Write hash0 c8full value).2 = some QErr.ioFailure := by
  have h1 := write_after_close hash0 c8closed value (by decide) (by decide)
  have h2 := write_after_close hash0 c8mostlyFull value (by decide) (by decide)
  have h3 := write_after_close hash0 c8full value (by decide) (by decide)
  exact ⟨h1.2.1 (by decide),
    h2.2.2 (by simp only [c8mostlyFull, bufCap, List.length_replicate, value_length]; omega),
    h3.2.2 (by simp only [c8full, bufCap, List.length_replicate, value_length]; omega)⟩

/-! ### The segment directory scanner -/

/-- C9 counterexample: a topic whose glob pattern is malformed (the
only condition under which `filepath.Glob` reports an error) makes
`SlabFiles` call `log.Panic` — the process crashes instead of the
operation failing with an I/O error. -/
theorem slabFiles_panics : SlabFiles c9fs "bad[" = SlabResult.panicked := by
  decide

/-- C9 (amended): the scanner returns an empty listing and no error
when the topic directory does not exist or holds no segments; but when
the underlying glob reports an error — only possible for a malformed
pattern, directory read failures being swallowed by `filepath.Glob` —
the scanner panics via `log.Panic` instead of failing the operation
with an I/O error kind. -/
theorem slabFiles_behavior (fs : GoFS) (topic : String) :
    (fs.badPattern topic = false → fs.dirs topic = none →
      SlabFiles fs topic = SlabResult.files []) ∧
    (fs.badPattern topic = false → fs.dirs topic = some [] →
      SlabFiles fs topic = SlabResult.files []) ∧
    (fs.badPattern topic = true → SlabFiles fs topic = SlabResult.panicked) := by
  refine ⟨fun h1 h2 => ?_, fun h1 h2 => ?_, fun h1 => ?_⟩
  · simp [SlabFiles, globSlabs, listing, h1, h2]
  · simp [SlabFiles, globSlabs, listing, h1, h2]
  · simp [SlabFiles, globSlabs, h1]

end Queuefka
